import Mathlib

/-!
Shallow embedding of the proof-of-work core of Hoosat-Oy/hoosatd
(package `pow`: lookup table, time-memory tradeoff, memory-hard function,
verifiable delay function, State construction and the three proof-of-work
variants, target check and block level).

Bytes are modelled as `Nat` values below 256, machine words as `Nat` with
explicit `% 2^32` / `% 2^64` where the Go code relies on fixed-width
wraparound.  External hash collaborators (Blake3 writers, blake2b-512, the
matrix transform, header hashing, compact-target decoding) are abstract
parameters bundled in `Primitives`; SHA-256 (Go `crypto/sha256`) is
implemented concretely per FIPS 180-4 because the lookup table's content
depends on its exact output.
-/

/-- Reduce to an unsigned 32-bit word. -/
def u32 (x : Nat) : Nat := x % 2 ^ 32

/-- Rotate a 32-bit word right by `n` (0 < n < 32). -/
def rotr32 (x n : Nat) : Nat := ((x >>> n) ||| (x <<< (32 - n))) % 2 ^ 32

/-- Big-endian 4-byte encoding of a 32-bit word (Go `binary.BigEndian.PutUint32`). -/
def putBE32 (n : Nat) : List Nat :=
  [(n >>> 24) % 256, (n >>> 16) % 256, (n >>> 8) % 256, n % 256]

/-- Big-endian 8-byte encoding of a 64-bit word (Go `binary.BigEndian.PutUint64`). -/
def putBE64 (n : Nat) : List Nat :=
  [(n >>> 56) % 256, (n >>> 48) % 256, (n >>> 40) % 256, (n >>> 32) % 256,
   (n >>> 24) % 256, (n >>> 16) % 256, (n >>> 8) % 256, n % 256]

/-- Little-endian 8-byte encoding of a 64-bit word (Go `binary.LittleEndian.PutUint64`). -/
def putLE64 (n : Nat) : List Nat :=
  [n % 256, (n >>> 8) % 256, (n >>> 16) % 256, (n >>> 24) % 256,
   (n >>> 32) % 256, (n >>> 40) % 256, (n >>> 48) % 256, (n >>> 56) % 256]

/-- Big-endian decode of the first 8 bytes (Go `binary.BigEndian.Uint64(b)`). -/
def beUint64 (l : List Nat) : Nat :=
  (l.take 8).foldl (fun acc b => acc * 256 + b) 0

/-- Guarded big-endian decode: Go `binary.BigEndian.Uint64` panics when fewer
than 8 bytes are available. -/
def beUint64Opt (l : List Nat) : Option Nat :=
  if 8 ≤ l.length then some (beUint64 l) else none

/-- Little-endian decode of the first 8 bytes (Go `binary.LittleEndian.Uint64(b)`). -/
def leUint64 (l : List Nat) : Nat :=
  (l.take 8).foldr (fun b acc => b + 256 * acc) 0

/-- Big-endian interpretation of a whole byte sequence as an unsigned integer
(Go `new(big.Int).SetBytes(input)`). -/
def beBytesToNat (l : List Nat) : Nat :=
  l.foldl (fun acc b => acc * 256 + b) 0

/-- Minimal big-endian byte encoding of a natural number (Go `big.Int.Bytes`,
which returns the empty slice for zero and no leading zero bytes otherwise). -/
def natToMinBE (n : Nat) : List Nat :=
  if h : n = 0 then [] else natToMinBE (n / 256) ++ [n % 256]
decreasing_by exact Nat.div_lt_self (Nat.pos_of_ne_zero h) (by decide)

/-! SHA-256 (Go `crypto/sha256`), FIPS 180-4. -/

/-- SHA-256 round constants (FIPS 180-4, written in decimal). -/
def sha256K : List Nat :=
  [1116352408, 1899447441, 3049323471, 3921009573, 961987163, 1508970993, 2453635748,
   2870763221, 3624381080, 310598401, 607225278, 1426881987, 1925078388, 2162078206,
   2614888103, 3248222580, 3835390401, 4022224774, 264347078, 604807628, 770255983,
   1249150122, 1555081692, 1996064986, 2554220882, 2821834349, 2952996808, 3210313671,
   3336571891, 3584528711, 113926993, 338241895, 666307205, 773529912, 1294757372,
   1396182291, 1695183700, 1986661051, 2177026350, 2456956037, 2730485921, 2820302411,
   3259730800, 3345764771, 3516065817, 3600352804, 4094571909, 275423344, 430227734,
   506948616, 659060556, 883997877, 958139571, 1322822218, 1537002063, 1747873779,
   1955562222, 2024104815, 2227730452, 2361852424, 2428436474, 2756734187, 3204031479,
   3329325298]

/-- Working variables of the SHA-256 compression function. -/
structure Hash8 where
  v0 : Nat
  v1 : Nat
  v2 : Nat
  v3 : Nat
  v4 : Nat
  v5 : Nat
  v6 : Nat
  v7 : Nat

/-- SHA-256 initial hash value (FIPS 180-4, written in decimal). -/
def sha256Init : Hash8 :=
  ⟨1779033703, 3144134277, 1013904242, 2773480762, 1359893119, 2600822924, 528734635,
   1541459225⟩

/-- Lower-case sigma-0 message-schedule function. -/
def sSigma0 (x : Nat) : Nat := (rotr32 x 7) ^^^ (rotr32 x 18) ^^^ (x >>> 3)

/-- Lower-case sigma-1 message-schedule function. -/
def sSigma1 (x : Nat) : Nat := (rotr32 x 17) ^^^ (rotr32 x 19) ^^^ (x >>> 10)

/-- Upper-case Sigma-0 compression function. -/
def bSigma0 (x : Nat) : Nat := (rotr32 x 2) ^^^ (rotr32 x 13) ^^^ (rotr32 x 22)

/-- Upper-case Sigma-1 compression function. -/
def bSigma1 (x : Nat) : Nat := (rotr32 x 6) ^^^ (rotr32 x 11) ^^^ (rotr32 x 25)

/-- Group a byte list into big-endian 32-bit words. -/
def bytesToWords : List Nat → List Nat
  | b0 :: b1 :: b2 :: b3 :: rest =>
      ((b0 <<< 24) ||| (b1 <<< 16) ||| (b2 <<< 8) ||| b3) :: bytesToWords rest
  | _ => []

/-- One message-schedule extension step; `wrev` holds the schedule words most
recent first, so `w[t-2]` is entry 1, `w[t-7]` entry 6, `w[t-15]` entry 14 and
`w[t-16]` entry 15. -/
def schedStep (wrev : List Nat) : List Nat :=
  u32 (sSigma1 (wrev.getD 1 0) + wrev.getD 6 0 + sSigma0 (wrev.getD 14 0) + wrev.getD 15 0) :: wrev

/-- Iterate the message-schedule extension. -/
def schedIter : Nat → List Nat → List Nat
  | 0, wrev => wrev
  | n + 1, wrev => schedIter n (schedStep wrev)

/-- Full 64-word SHA-256 message schedule from the 16 block words. -/
def schedule (w16 : List Nat) : List Nat := (schedIter 48 w16.reverse).reverse

/-- One SHA-256 compression round, consuming a (round constant, schedule word) pair. -/
def compressStep (st : Hash8) (kw : Nat × Nat) : Hash8 :=
  let ch := (st.v4 &&& st.v5) ^^^ ((st.v4 ^^^ 0xffffffff) &&& st.v6)
  let maj := (st.v0 &&& st.v1) ^^^ (st.v0 &&& st.v2) ^^^ (st.v1 &&& st.v2)
  let t1 := u32 (st.v7 + bSigma1 st.v4 + ch + kw.1 + kw.2)
  let t2 := u32 (bSigma0 st.v0 + maj)
  ⟨u32 (t1 + t2), st.v0, st.v1, st.v2, u32 (st.v3 + t1), st.v4, st.v5, st.v6⟩

/-- Compress one 64-byte block into the running hash value. -/
def compressBlock (st : Hash8) (block : List Nat) : Hash8 :=
  let ws := schedule (bytesToWords block)
  let f := (sha256K.zip ws).foldl compressStep st
  ⟨u32 (st.v0 + f.v0), u32 (st.v1 + f.v1), u32 (st.v2 + f.v2), u32 (st.v3 + f.v3),
   u32 (st.v4 + f.v4), u32 (st.v5 + f.v5), u32 (st.v6 + f.v6), u32 (st.v7 + f.v7)⟩

/-- Consume the padded message 64 bytes at a time; the fuel argument (the
padded length suffices) only bounds the recursion. -/
def sha256Blocks : Nat → Hash8 → List Nat → Hash8
  | 0, st, _ => st
  | _ + 1, st, [] => st
  | fuel + 1, st, l => sha256Blocks fuel (compressBlock st (l.take 64)) (l.drop 64)

/-- SHA-256 padding: append 0x80, zero bytes to 56 mod 64, then the bit length
as an 8-byte big-endian integer. -/
def sha256Pad (msg : List Nat) : List Nat :=
  msg ++ [0x80] ++ List.replicate ((55 + 64 - msg.length % 64) % 64) 0 ++ putBE64 (8 * msg.length)

/-- Big-endian 4-byte encoding of a 32-bit word, as the digest serialization uses it. -/
def word32ToBE (w : Nat) : List Nat := putBE32 w

/-- SHA-256 digest (32 bytes) of a byte sequence (Go `sha256.Sum256`). -/
def sha256 (msg : List Nat) : List Nat :=
  let padded := sha256Pad msg
  let st := sha256Blocks padded.length sha256Init padded
  word32ToBE st.v0 ++ word32ToBE st.v1 ++ word32ToBE st.v2 ++ word32ToBE st.v3 ++
  word32ToBE st.v4 ++ word32ToBE st.v5 ++ word32ToBE st.v6 ++ word32ToBE st.v7

/-! The `pow` package. -/

/-- Size of the global lookup table (`const tableSize = 1 << 20`). -/
def tableSize : Nat := 2 ^ 20

/-- Entry `i` of the global lookup table, as `generateHoohashLookupTable` fills
it: a fresh 32-byte seed receives the big-endian encoding of `uint32(i)` in its
first 4 bytes (the remaining 28 bytes stay zero), and the entry is the
big-endian 64-bit decode of the first 8 bytes of the seed's SHA-256 digest.
Each entry is a pure function of its index, so the populated global array is
modelled as this function. -/
def lookupTable (i : Nat) : Nat :=
  beUint64 (sha256 (putBE32 (i % 2 ^ 32) ++ List.replicate 28 0))

/-- Lookup-table entry as claimed by the spec sentence "entry[i] = first 8
bytes of SHA-256(big-endian 4-byte encoding of i)": the hash input is the bare
4-byte encoding, with no zero padding.  Kept only to compare with
`lookupTable`, which follows the source. -/
def lookupTableClaim (i : Nat) : Nat :=
  beUint64 (sha256 (putBE32 (i % 2 ^ 32)))

/-- Rotate a 64-bit word left by one bit (`(result << 1) | (result >> 63)`). -/
def rotl64one (r : Nat) : Nat := ((r <<< 1) ||| (r >>> 63)) % 2 ^ 64

/-- The loop body count of `timeMemoryTradeoff`, structurally recursive on the
remaining round count. -/
def tmtLoop : Nat → Nat → Nat
  | 0, r => r
  | n + 1, r => tmtLoop n (rotl64one (r ^^^ lookupTable (r % tableSize)))

/-- Go `timeMemoryTradeoff`: 1000 rounds of table xor followed by a one-bit
left rotation. -/
def timeMemoryTradeoff (input : Nat) : Nat := tmtLoop 1000 input

/-- Scratchpad size of `memoryHardFunction` (`const memorySize = 1 << 10`). -/
def memorySize : Nat := 2 ^ 10

/-- One scratchpad-word update of `memoryHardFunction`: read word `j`, derive
two indices from its low and high halves, blake2b-512 the two referenced words
(each written little-endian), and overwrite word `j` with the little-endian
decode of the hash's first 8 bytes. -/
def mhfUpdate (blake2b512 : List Nat → List Nat) (memory : List Nat) (j : Nat) : List Nat :=
  let w := memory.getD j 0
  let index1 := w % memorySize
  let index2 := (w >>> 32) % memorySize
  let h := blake2b512 (putLE64 (memory.getD index1 0) ++ putLE64 (memory.getD index2 0))
  memory.set j (leUint64 h)

/-- One full iteration of `memoryHardFunction`: update every scratchpad word in
index order. -/
def mhfIteration (blake2b512 : List Nat → List Nat) (memory : List Nat) : List Nat :=
  (List.range memorySize).foldl (mhfUpdate blake2b512) memory

/-- Go `memoryHardFunction`.  The scratchpad is initialized to `memorySize`
copies of the little-endian decode of the input's first 8 bytes (Go
`binary.LittleEndian.Uint64(input)` panics when fewer than 8 bytes are
available, hence the guard), two iterations run in order, and the result is
the little-endian serialization of the first 8 final words (64 bytes). -/
def memoryHardFunction (blake2b512 : List Nat → List Nat) (input : List Nat) :
    Option (List Nat) :=
  if 8 ≤ input.length then
    let memory := List.replicate memorySize (leUint64 input)
    let final := mhfIteration blake2b512 (mhfIteration blake2b512 memory)
    some (((List.range 8).map (fun i => putLE64 (final.getD i 0))).flatten)
  else none

/-- The VDF modulus, from the hex string
`FFFFFFFFFFFFFFFFFFFFFFFFFFFFFFFFFFFFFFFFFFFFFFFFFFFFFFFEFFFFFC2F` the source
feeds to `big.Int.SetString` with base 16. -/
def vdfPrime : Nat :=
  0xFFFFFFFFFFFFFFFFFFFFFFFFFFFFFFFFFFFFFFFFFFFFFFFFFFFFFFFEFFFFFC2F

/-- The repeated-squaring loop of `verifiableDelayFunction`, structurally
recursive on the remaining round count. -/
def vdfLoop : Nat → Nat → Nat
  | 0, x => x
  | n + 1, x => vdfLoop n (x * x % vdfPrime)

/-- Go `verifiableDelayFunction`: interpret the input bytes as a big-endian
unsigned integer, square it modulo `vdfPrime` for 1000 rounds, and return the
SHA-256 digest of the final value's minimal big-endian encoding. -/
def verifiableDelayFunction (input : List Nat) : List Nat :=
  sha256 (natToMinBE (vdfLoop 1000 (beBytesToNat input)))

/-- Block header, as far as the `pow` package reads and writes it: the compact
difficulty bits, the millisecond timestamp, the nonce, the direct-parent hash
list, and the remaining header content (opaque here, seen only by the abstract
header-hash collaborator). -/
structure Header where
  bits : Nat
  timeInMilliseconds : Int
  nonce : Nat
  directParents : List (List Nat)
  rest : List Nat
deriving DecidableEq

/-- The external collaborators of the `pow` package, abstract except for their
digest lengths: the two Blake3 hash writers (`hashes.PoWHashWriter`, used by
the original variant, and `hashes.Blake3HashWriter`, used by rev1/rev2),
blake2b-512, the matrix transform pair (`generateMatrix` with its `bHeavyHash`
and `HoohashMatrixMultiplication` operations, the handle modelled as an opaque
byte list), the header hash (`consensushashing.HeaderHash`) and the
compact-bits decoder (`difficulty.CompactToBig`, which may return a negative
value when the compact sign bit is set). -/
structure Primitives where
  powHash : List Nat → List Nat
  blake3 : List Nat → List Nat
  blake2b512 : List Nat → List Nat
  generateMatrix : List Nat → List Nat
  bHeavyHash : List Nat → List Nat → List Nat
  matMul : List Nat → List Nat → List Nat
  headerHash : Header → List Nat
  compactToBig : Nat → Int
  powHash_len : ∀ l, (powHash l).length = 32
  blake3_len : ∀ l, (blake3 l).length = 32
  blake2b512_len : ∀ l, (blake2b512 l).length = 64
  headerHash_len : ∀ h, (headerHash h).length = 32

/-- Go `State`: pre-computed per-evaluation mining context. -/
structure State where
  mat : List Nat
  Timestamp : Int
  Nonce : Nat
  Target : Int
  prePowHash : List Nat
deriving DecidableEq

/-- Go `NewState`.  The header's timestamp and nonce are snapshotted, zeroed
for the pre-PoW hash, then restored; the function returns both the new `State`
and the header as it stands after the call, making the mutation visible.
(`generateHoohashLookupTable()` is also invoked here; the table is modelled as
the pure function `lookupTable`, so the call has no further effect.) -/
def NewState (P : Primitives) (header : Header) : State × Header :=
  let target := P.compactToBig header.bits
  let timestamp := header.timeInMilliseconds
  let nonce := header.nonce
  let zeroed := { header with timeInMilliseconds := 0, nonce := 0 }
  let prePowHash := P.headerHash zeroed
  let restored := { zeroed with timeInMilliseconds := timestamp, nonce := nonce }
  (⟨P.generateMatrix prePowHash, timestamp, nonce, target, prePowHash⟩, restored)

/-- The hash pre-image every variant writes:
`PRE_POW_HASH || TIME || 32 zero byte padding || NONCE`, with the timestamp
serialized as a little-endian two's-complement 8-byte field and the nonce as a
little-endian 8-byte field (`serialization.WriteElement`). -/
def buildMessage (s : State) : List Nat :=
  s.prePowHash ++ putLE64 ((s.Timestamp % (2 ^ 64 : Int)).toNat) ++
    List.replicate 32 0 ++ putLE64 s.Nonce

/-- Go `toBig`: reverse the digest's bytes in place, then parse the reversed
bytes as a big-endian unsigned integer. -/
def toBigNat (hash : List Nat) : Nat := beBytesToNat hash.reverse

/-- Go `CalculateProofOfWorkValue` (the "original" variant): Blake3 the
message via `hashes.PoWHashWriter`, apply the matrix `bHeavyHash`, convert
with `toBig`. -/
def CalculateProofOfWorkValue (P : Primitives) (s : State) : Nat :=
  toBigNat (P.bHeavyHash s.mat (P.powHash (buildMessage s)))

/-- Go slice-to-array coercion `(*[32]byte)(combined)`: panics (modelled as
`none`) when the slice is shorter than 32 bytes, otherwise yields the first
32 bytes. -/
def toArray32 (l : List Nat) : Option (List Nat) :=
  if 32 ≤ l.length then some (l.take 32) else none

/-- The 97-byte concatenation rev2 builds:
memory-hard result ‖ VDF result ‖ low byte of the tradeoff result. -/
def rev2Combined (r : List Nat) (tradeoffResult : Nat) : List Nat :=
  r ++ verifiableDelayFunction r ++ [tradeoffResult % 256]

/-- Go `CalculateProofOfWorkValueHoohashRev2`: Blake3 the message, run
`memoryHardFunction`, feed its first 8 bytes (big-endian) to
`timeMemoryTradeoff` and all of it to `verifiableDelayFunction`, concatenate,
coerce to 32 bytes, matrix-multiply, Blake3 again, convert with `toBig`.
Each Go panic point is modelled as `none`. -/
def CalculateProofOfWorkValueHoohashRev2 (P : Primitives) (s : State) : Option Nat :=
  let powHash := P.blake3 (buildMessage s)
  match memoryHardFunction P.blake2b512 powHash with
  | none => none
  | some memoryHardResult =>
    match beUint64Opt memoryHardResult with
    | none => none
    | some seed =>
      match toArray32 (rev2Combined memoryHardResult (timeMemoryTradeoff seed)) with
      | none => none
      | some truncated =>
        some (toBigNat (P.blake3 (P.matMul s.mat truncated)))

/-- Go `CalculateProofOfWorkValueHoohashRev1`: Blake3 the message,
matrix-multiply, Blake3 again, convert with `toBig`. -/
def CalculateProofOfWorkValueHoohashRev1 (P : Primitives) (s : State) : Nat :=
  toBigNat (P.blake3 (P.matMul s.mat (P.blake3 (buildMessage s))))

/-- Go `IncrementNonce`: `state.Nonce++` on a `uint64`, wrapping at `2^64`. -/
def IncrementNonce (s : State) : State := { s with Nonce := (s.Nonce + 1) % 2 ^ 64 }

/-- Go `CheckProofOfWork`: `powNum.Cmp(&state.Target) <= 0`, the inclusive
comparison of the original variant's work value against the target. -/
def CheckProofOfWork (P : Primitives) (s : State) : Bool :=
  decide ((CalculateProofOfWorkValue P s : Int) ≤ s.Target)

/-- Go `CheckProofOfWorkByBits`. -/
def CheckProofOfWorkByBits (P : Primitives) (header : Header) : Bool :=
  CheckProofOfWork P (NewState P header).1

/-- Go `BlockLevel`: genesis (zero direct parents) gets the maximal level;
otherwise the level is `maxBlockLevel` minus the work value's bit length
(`big.Int.BitLen`, i.e. `Nat.size`), clamped to zero when negative. -/
def BlockLevel (P : Primitives) (header : Header) (maxBlockLevel : Int) : Int :=
  if header.directParents.length = 0 then maxBlockLevel
  else
    let proofOfWorkValue := CalculateProofOfWorkValue P (NewState P header).1
    let level := maxBlockLevel - Nat.size proofOfWorkValue
    if level < 0 then 0 else level

/-! Concrete exemplar objects, used by the witness theorems. -/

/-- A concrete `Primitives` instance with trivial collaborators of the right
digest lengths. -/
def samplePrimitives : Primitives where
  powHash := fun _ => List.replicate 32 0
  blake3 := fun _ => List.replicate 32 0
  blake2b512 := fun _ => List.replicate 64 0
  generateMatrix := id
  bHeavyHash := fun _ h => h
  matMul := fun _ h => h
  headerHash := fun _ => List.replicate 32 0
  compactToBig := fun b => (b : Int)
  powHash_len := fun _ => by simp
  blake3_len := fun _ => by simp
  blake2b512_len := fun _ => by simp
  headerHash_len := fun _ => by simp

/-- A concrete mining state. -/
def sampleState : State := ⟨[], 0, 5, 0, List.replicate 32 0⟩

/-! Sanity anchors: the SHA-256 embedding reproduces published test vectors. -/

set_option maxRecDepth 100000

/-- FIPS 180-4 test vector: SHA-256 of the three-byte message "abc". -/
theorem sha256_abc_vector :
    sha256 [0x61, 0x62, 0x63] =
      [0xba, 0x78, 0x16, 0xbf, 0x8f, 0x01, 0xcf, 0xea,
       0x41, 0x41, 0x40, 0xde, 0x5d, 0xae, 0x22, 0x23,
       0xb0, 0x03, 0x61, 0xa3, 0x96, 0x17, 0x7a, 0x9c,
       0xb4, 0x10, 0xff, 0x61, 0xf2, 0x00, 0x15, 0xad] := by decide

/-- The lookup table's entry 0 matches the externally computed SHA-256 digest
of 32 zero bytes (`66687aad f862bd77 ...`). -/
theorem lookupTable_zero_value : lookupTable 0 = 0x66687aadf862bd77 := by decide

/-! Helper lemmas. -/

/-- A SHA-256 digest always has 32 bytes. -/
lemma sha256_length (msg : List Nat) : (sha256 msg).length = 32 := by
  simp [sha256, word32ToBE, putBE32]

/-- Every byte of a big-endian word encoding is below 256. -/
lemma putBE32_byte_lt (w : Nat) : ∀ b ∈ putBE32 w, b < 256 := by
  simp only [putBE32, List.mem_cons, List.not_mem_nil, or_false]
  rintro b (rfl | rfl | rfl | rfl) <;> exact Nat.mod_lt _ (by decide)

/-- Every byte of a SHA-256 digest is below 256. -/
lemma sha256_byte_lt (msg : List Nat) : ∀ b ∈ sha256 msg, b < 256 := by
  intro b hb
  simp only [sha256, word32ToBE, List.mem_append] at hb
  rcases hb with ((((((h | h) | h) | h) | h) | h) | h) | h <;> exact putBE32_byte_lt _ _ h

/-- Base-256 accumulation over bytes stays below `M * 256 ^ length` when the
accumulator starts below `M`. -/
lemma foldl_base256_lt (l : List Nat) : ∀ acc M : Nat, (∀ b ∈ l, b < 256) → acc < M →
    l.foldl (fun a b => a * 256 + b) acc < M * 256 ^ l.length := by
  induction l with
  | nil => intro acc M _ hacc; simpa using hacc
  | cons b t ih =>
      intro acc M hb hacc
      simp only [List.foldl_cons, List.length_cons]
      have hlt : acc * 256 + b < M * 256 := by
        have hb0 : b < 256 := hb b (by simp)
        omega
      have h2 := ih (acc * 256 + b) (M * 256) (fun x hx => hb x (by simp [hx])) hlt
      calc t.foldl (fun a b => a * 256 + b) (acc * 256 + b) < M * 256 * 256 ^ t.length := h2
        _ = M * 256 ^ (t.length + 1) := by ring

/-- The big-endian 64-bit decode of a byte list is a 64-bit value. -/
lemma beUint64_lt (l : List Nat) (hb : ∀ b ∈ l, b < 256) : beUint64 l < 2 ^ 64 := by
  have h := foldl_base256_lt (l.take 8) 0 1 (fun b hbm => hb b (List.mem_of_mem_take hbm))
    Nat.one_pos
  have hlen : (l.take 8).length ≤ 8 := by simp [List.length_take]
  calc beUint64 l < 1 * 256 ^ (l.take 8).length := h
    _ ≤ 256 ^ 8 := by simpa using Nat.pow_le_pow_right (by decide) hlen
    _ = 2 ^ 64 := by norm_num

/-- The little-endian serialization of a 64-bit word has 8 bytes. -/
lemma putLE64_length (n : Nat) : (putLE64 n).length = 8 := rfl

/-- When the input has at least 8 bytes, `memoryHardFunction` succeeds and its
result has exactly 64 bytes. -/
lemma memoryHardFunction_some (blake2b512 : List Nat → List Nat) (input : List Nat)
    (hin : 8 ≤ input.length) :
    ∃ r, memoryHardFunction blake2b512 input = some r ∧ r.length = 64 := by
  unfold memoryHardFunction
  rw [if_pos hin]
  exact ⟨_, rfl, by simp [List.range_succ, putLE64_length]⟩

/-- The VDF output is a SHA-256 digest, hence 32 bytes. -/
lemma verifiableDelayFunction_length (input : List Nat) :
    (verifiableDelayFunction input).length = 32 := sha256_length _

/-- The rev2 concatenation of a 64-byte memory-hard result, the VDF digest and
the tradeoff byte has 97 bytes. -/
lemma rev2Combined_length (r : List Nat) (t : Nat) (hr : r.length = 64) :
    (rev2Combined r t).length = 97 := by
  simp [rev2Combined, verifiableDelayFunction_length, hr]

/-- Taking the first 32 bytes of the rev2 concatenation only reaches into the
64-byte memory-hard result, never into the VDF digest or the tradeoff byte. -/
lemma rev2Combined_take_32 (r : List Nat) (t : Nat) (hr : r.length = 64) :
    (rev2Combined r t).take 32 = r.take 32 := by
  unfold rev2Combined
  rw [List.append_assoc, List.take_append_of_le_length (by omega)]

/-- Shared reduction of the rev2 variant: the whole evaluation equals mapping
`R ↦ toBig (blake3 (matMul mat (R.take 32)))` over the memory-hard result. -/
lemma rev2_eq_map_take_32 (P : Primitives) (s : State) :
    CalculateProofOfWorkValueHoohashRev2 P s =
      Option.map (fun r => toBigNat (P.blake3 (P.matMul s.mat (r.take 32))))
        (memoryHardFunction P.blake2b512 (P.blake3 (buildMessage s))) := by
  have hin : 8 ≤ (P.blake3 (buildMessage s)).length := by rw [P.blake3_len]; omega
  obtain ⟨r, hr, hrlen⟩ := memoryHardFunction_some P.blake2b512 _ hin
  have hbe : beUint64Opt r = some (beUint64 r) := by
    unfold beUint64Opt
    rw [if_pos (by omega)]
  have harr : toArray32 (rev2Combined r (timeMemoryTradeoff (beUint64 r))) =
      some ((rev2Combined r (timeMemoryTradeoff (beUint64 r))).take 32) := by
    unfold toArray32
    rw [if_pos (by rw [rev2Combined_length r _ hrlen]; omega)]
  simp only [CalculateProofOfWorkValueHoohashRev2, hr, hbe, harr,
    rev2Combined_take_32 r _ hrlen, Option.map_some]
  rfl

/-- C1: in `CalculateProofOfWorkValueHoohashRev2` the 97-byte concatenation
R ‖ V ‖ (low byte of T64) is coerced into a fixed 32-byte array before
`HoohashMatrixMultiplication`, so only the first 32 bytes of the memory-hard
result R are consumed and the work value is independent of the
`verifiableDelayFunction` output V and the `timeMemoryTradeoff` output T64:
the whole rev2 evaluation equals mapping
`R ↦ toBig (blake3 (matMul mat (R.take 32)))` over the memory-hard result,
an expression in which neither V nor T64 occurs. -/
theorem rev2_truncates_to_first_32_bytes_of_memory_hard_result
    (P : Primitives) (s : State) :
    CalculateProofOfWorkValueHoohashRev2 P s =
      Option.map (fun r => toBigNat (P.blake3 (P.matMul s.mat (r.take 32))))
        (memoryHardFunction P.blake2b512 (P.blake3 (buildMessage s))) :=
  rev2_eq_map_take_32 P s

/-- C2 counterexample: the lookup-table entry at index 0 is not the first 8
bytes of SHA-256 of the bare 4-byte big-endian encoding of 0; the source
hashes a 32-byte seed (the 4-byte encoding followed by 28 zero bytes), and the
two digests differ. -/
theorem lookup_table_entry_differs_from_claimed_four_byte_hash :
    lookupTable 0 ≠ lookupTableClaim 0 := by decide

/-- C2 amended: for every index `i` in `[0, 2^20)` the lookup-table entry is
the big-endian 64-bit decode of the first 8 bytes of SHA-256 applied to the
32-byte buffer whose first 4 bytes are the big-endian encoding of `i` and
whose remaining 28 bytes are zero, and the entry fits in an unsigned 64-bit
word. -/
theorem lookup_table_entry_is_sha256_of_padded_index
    (i : Nat) (hi : i < 2 ^ 20) :
    lookupTable i =
      ((sha256 (putBE32 i ++ List.replicate 28 0)).take 8).foldl
        (fun acc b => acc * 256 + b) 0 ∧
    lookupTable i < 2 ^ 64 := by
  constructor
  · unfold lookupTable beUint64
    rw [Nat.mod_eq_of_lt (lt_trans hi (by norm_num))]
  · exact beUint64_lt _ (sha256_byte_lt _)

/-- C2 witness: the amended statement holds at index 0. -/
theorem lookup_table_entry_is_sha256_of_padded_index_witness :
    0 < 2 ^ 20 ∧
    (lookupTable 0 =
      ((sha256 (putBE32 0 ++ List.replicate 28 0)).take 8).foldl
        (fun acc b => acc * 256 + b) 0 ∧
    lookupTable 0 < 2 ^ 64) :=
  ⟨by norm_num, lookup_table_entry_is_sha256_of_padded_index 0 (by norm_num)⟩

/-- C3 counterexample: for the 32-byte digest whose first byte is `0x01` and
whose remaining 31 bytes are zero, `toBig` yields 1 (the digest is read
little-endian, so the first byte is least significant), not `2^248`. -/
theorem to_big_of_leading_one_digest_is_not_2_pow_248 :
    toBigNat (0x01 :: List.replicate 31 0) ≠ 2 ^ 248 := by decide

/-- C3 amended: `toBig` reverses the digest's byte order and parses the
reversed bytes as a big-endian unsigned integer, and for the literal 32-byte
digest whose first byte is `0x01` and whose remaining 31 bytes are `0x00` the
resulting work value equals 1. -/
theorem to_big_reverses_and_parses_big_endian :
    (∀ digest : List Nat, toBigNat digest = beBytesToNat digest.reverse) ∧
    toBigNat (0x01 :: List.replicate 31 0) = 1 :=
  ⟨fun _ => rfl, by decide⟩

/-- The reverse-then-parse-big-endian conversion of `toBig` is exactly the
little-endian interpretation of the digest. -/
lemma toBigNat_eq_little_endian (digest : List Nat) :
    toBigNat digest = digest.foldr (fun b acc => b + 256 * acc) 0 := by
  unfold toBigNat beBytesToNat
  rw [List.foldl_reverse]
  have hf : (fun (x : Nat) (y : Nat) => y * 256 + x) =
      (fun (b : Nat) (acc : Nat) => b + 256 * acc) := by
    funext x y
    ring
  rw [hf]

/-- The original variant's work value never reads the target, so overwriting
the target leaves it unchanged. -/
lemma calculate_pow_value_ignores_target (P : Primitives) (s : State) (t : Int) :
    CalculateProofOfWorkValue P { s with Target := t } =
      CalculateProofOfWorkValue P s := rfl

/-- C4: `CheckProofOfWork` returns true exactly when the original variant's
work value is at most the target (inclusive comparison); with the target set
to the work value itself it returns true, and with the target set to the work
value minus one it returns false. -/
theorem check_proof_of_work_inclusive_boundary (P : Primitives) (s : State) :
    (CheckProofOfWork P s =
      decide ((CalculateProofOfWorkValue P s : Int) ≤ s.Target)) ∧
    CheckProofOfWork P { s with Target := (CalculateProofOfWorkValue P s : Int) } = true ∧
    CheckProofOfWork P
      { s with Target := (CalculateProofOfWorkValue P s : Int) - 1 } = false := by
  refine ⟨rfl, ?_, ?_⟩
  · simp [CheckProofOfWork, calculate_pow_value_ignores_target]
  · simp only [CheckProofOfWork, calculate_pow_value_ignores_target,
      decide_eq_false_iff_not]
    omega

/-- C5: `BlockLevel` returns `maxBlockLevel` unconditionally for a header with
zero direct parents; otherwise it returns `maxBlockLevel` minus the bit length
of the original variant's work value, clamped to zero when that difference is
negative, so the non-genesis branch never yields a negative level. -/
theorem block_level_genesis_and_clamp (P : Primitives) (header : Header)
    (maxBlockLevel : Int) :
    BlockLevel P header maxBlockLevel =
      (if header.directParents = [] then maxBlockLevel
       else max 0 (maxBlockLevel -
         (Nat.size (CalculateProofOfWorkValue P (NewState P header).1) : Int))) ∧
    (BlockLevel P header maxBlockLevel = maxBlockLevel ∨
      0 ≤ BlockLevel P header maxBlockLevel) := by
  constructor
  · by_cases hp : header.directParents = []
    · simp [BlockLevel, hp]
    · have hlen : header.directParents.length ≠ 0 := by
        simpa [List.length_eq_zero] using hp
      simp only [BlockLevel, if_neg hlen, if_neg hp]
      split <;> omega
  · simp only [BlockLevel]
    split
    · exact Or.inl rfl
    · right
      split <;> omega

/-- C6: `verifiableDelayFunction` performs exactly 1000 rounds of squaring
modulo `p = 2^256 − 2^32 − 977` on its input read as a big-endian unsigned
integer, and returns the SHA-256 digest of the final value's minimal
big-endian encoding; being a total function, it succeeds on every byte
sequence. -/
theorem vdf_is_1000_squarings_mod_secp_prime (input : List Nat) :
    verifiableDelayFunction input =
      sha256 (natToMinBE
        ((fun x => x * x % (2 ^ 256 - 2 ^ 32 - 977))^[1000] (beBytesToNat input))) := by
  have hp : vdfPrime = 2 ^ 256 - 2 ^ 32 - 977 := by norm_num [vdfPrime]
  have hloop : ∀ n x, vdfLoop n x = (fun x => x * x % vdfPrime)^[n] x := by
    intro n
    induction n with
    | zero => intro x; rfl
    | succ k ih =>
        intro x
        rw [vdfLoop, ih, ← Function.iterate_succ_apply]
  unfold verifiableDelayFunction
  rw [hloop, hp]

/-- C7: `n` applications of `IncrementNonce` add `n` to the nonce modulo
`2^64` (silent wraparound) and leave every other `State` field unchanged. -/
theorem increment_nonce_adds_mod_2_64 (s : State) (n : Nat) (hs : s.Nonce < 2 ^ 64) :
    (IncrementNonce^[n] s).Nonce = (s.Nonce + n) % 2 ^ 64 ∧
    (IncrementNonce^[n] s).Timestamp = s.Timestamp ∧
    (IncrementNonce^[n] s).Target = s.Target ∧
    (IncrementNonce^[n] s).mat = s.mat ∧
    (IncrementNonce^[n] s).prePowHash = s.prePowHash := by
  induction n with
  | zero => exact ⟨(Nat.mod_eq_of_lt hs).symm, rfl, rfl, rfl, rfl⟩
  | succ k ih =>
      obtain ⟨hn, ht, htg, hm, hp⟩ := ih
      rw [Function.iterate_succ_apply']
      refine ⟨?_, ht, htg, hm, hp⟩
      show ((IncrementNonce^[k] s).Nonce + 1) % 2 ^ 64 = (s.Nonce + (k + 1)) % 2 ^ 64
      rw [hn]
      omega

/-- C7 witness: three increments on a concrete state. -/
theorem increment_nonce_adds_mod_2_64_witness :
    sampleState.Nonce < 2 ^ 64 ∧
    ((IncrementNonce^[3] sampleState).Nonce = (sampleState.Nonce + 3) % 2 ^ 64 ∧
     (IncrementNonce^[3] sampleState).Timestamp = sampleState.Timestamp ∧
     (IncrementNonce^[3] sampleState).Target = sampleState.Target ∧
     (IncrementNonce^[3] sampleState).mat = sampleState.mat ∧
     (IncrementNonce^[3] sampleState).prePowHash = sampleState.prePowHash) :=
  ⟨by norm_num [sampleState], increment_nonce_adds_mod_2_64 sampleState 3 (by norm_num [sampleState])⟩

/-- C8: `NewState` leaves the header exactly as it found it — the timestamp
and nonce are zeroed only for the pre-PoW hash and then restored — and the
returned state's `Timestamp` and `Nonce` hold the header's original values,
while `prePowHash` is the header hash taken with both fields zeroed. -/
theorem new_state_restores_header_fields (P : Primitives) (header : Header) :
    (NewState P header).2 = header ∧
    (NewState P header).1.Timestamp = header.timeInMilliseconds ∧
    (NewState P header).1.Nonce = header.nonce ∧
    (NewState P header).1.prePowHash =
      P.headerHash { header with timeInMilliseconds := 0, nonce := 0 } := by
  cases header
  exact ⟨rfl, rfl, rfl, rfl⟩

/-- C9: `memoryHardFunction` reads only the leading 8 bytes of its input —
any two inputs of at least 8 bytes that agree on their first 8 bytes yield
identical outputs, for every choice of the blake2b-512 collaborator. -/
theorem memory_hard_function_depends_only_on_first_8_bytes
    (blake2b512 : List Nat → List Nat) (input1 input2 : List Nat)
    (h1 : 8 ≤ input1.length) (h2 : 8 ≤ input2.length)
    (h8 : input1.take 8 = input2.take 8) :
    memoryHardFunction blake2b512 input1 = memoryHardFunction blake2b512 input2 := by
  unfold memoryHardFunction
  rw [if_pos h1, if_pos h2]
  unfold leUint64
  rw [h8]

/-- C9 witness: two concrete inputs sharing their first 8 bytes but differing
afterwards produce the same output. -/
theorem memory_hard_function_depends_only_on_first_8_bytes_witness :
    8 ≤ (List.replicate 8 (0 : Nat)).length ∧
    8 ≤ (List.replicate 8 (0 : Nat) ++ [1]).length ∧
    (List.replicate 8 (0 : Nat)).take 8 = (List.replicate 8 (0 : Nat) ++ [1]).take 8 ∧
    memoryHardFunction (fun _ => List.replicate 64 0) (List.replicate 8 0) =
      memoryHardFunction (fun _ => List.replicate 64 0) (List.replicate 8 0 ++ [1]) :=
  ⟨by decide, by decide, by decide,
    memory_hard_function_depends_only_on_first_8_bytes _ _ _
      (by decide) (by decide) (by decide)⟩

/-- C10: for every input of at least 8 bytes `memoryHardFunction` succeeds
with a 64-byte result, the rev2 concatenation built from such a result always
has 97 bytes (hence at least 32), and `CalculateProofOfWorkValueHoohashRev2`
never reaches a panic point: it returns a value for every state. -/
theorem rev2_coercion_never_fails (P : Primitives) (s : State) (input : List Nat)
    (hin : 8 ≤ input.length) :
    (∃ r, memoryHardFunction P.blake2b512 input = some r ∧ r.length = 64 ∧
      ∀ t, (rev2Combined r t).length = 97) ∧
    (CalculateProofOfWorkValueHoohashRev2 P s).isSome = true := by
  constructor
  · obtain ⟨r, hr, hrlen⟩ := memoryHardFunction_some P.blake2b512 input hin
    exact ⟨r, hr, hrlen, fun t => rev2Combined_length r t hrlen⟩
  · rw [rev2_eq_map_take_32 P s]
    obtain ⟨r, hr, -⟩ := memoryHardFunction_some P.blake2b512 (P.blake3 (buildMessage s))
      (by rw [P.blake3_len]; omega)
    rw [hr]
    rfl

/-- C10 witness: the totality statement at a concrete primitives instance,
state and input. -/
theorem rev2_coercion_never_fails_witness :
    8 ≤ (List.replicate 32 (0 : Nat)).length ∧
    ((∃ r, memoryHardFunction samplePrimitives.blake2b512 (List.replicate 32 0) = some r ∧
        r.length = 64 ∧ ∀ t, (rev2Combined r t).length = 97) ∧
     (CalculateProofOfWorkValueHoohashRev2 samplePrimitives sampleState).isSome = true) :=
  ⟨by decide, rev2_coercion_never_fails samplePrimitives sampleState _ (by decide)⟩

